import Mathlib

/-!
Verification development for the dependency-tracking and invalidation engine
of the valtio-ex repository (src/valtio.ts).

The engine is a single-threaded, synchronous JavaScript module built around
module-level mutable singletons (computedRegistry, dependencyGraph,
proxyCache, currentTracker) plus one Store per root.  We embed it shallowly:

* the mutable module state and one store's subscriber registry become one
  explicit `Engine` record that every operation threads;
* user-supplied code (computed getter bodies, component render functions)
  becomes a tiny expression language `Expr` whose reads are interpreted by
  the very same proxy-trap semantics the source implements;
* fallible evaluation returns `Except Unit` (a JavaScript throw carries no
  information we need); recursion between the interpreter and the engine
  (a getter body reads another computed, which evaluates, ...) is broken by
  a fuel parameter, with `none` meaning fuel exhaustion.  All functions are
  structurally recursive so concrete runs reduce by `rfl`.

Ghost instrumentation (never read by the engine itself, only observed by
theorems): `runCount` counts invocations of a computed's evaluation
function, `pinged` logs subscriber-callback invocations, and `notifyLog`
logs every invocation of `notifyPathChange`.
-/

namespace ValtioEx

/-- Identity of a tracking scope: components are keyed by a fresh symbol in
the source (modelled as `Nat`); computeds are keyed by their DepKey string.
This mirrors the `CompId = string | symbol` union and the
`typeof tracker !== "string"` discrimination. -/
inductive CompId where
  | component (n : Nat)
  | computed (key : String)
deriving DecidableEq, Repr

/-- User code (computed getter bodies, component render functions) as a tiny
expression language.  `readPath segs` performs the chained property reads
`this.s1.s2...` through the interception layer, exactly as JavaScript code
executing against a proxy receiver would. -/
inductive Expr where
  | litNum (n : Int)
  | litStr (s : String)
  | litBool (b : Bool)
  | litUndefV
  | readPath (segs : List String)
  | seq (a b : Expr)
  | throwE
deriving DecidableEq, Repr

/-- JavaScript values reachable in the engine.  `getterV` stands for a
property whose descriptor has a `get` accessor (it only occurs as a field
value); `refV` is a `ref(...)`-wrapped opaque value (REF_MARK); `live` and
`liveC` are the LivePrimitive callables produced for untracked reads,
carrying their `__path` payload (a raw path, resp. a computed DepKey). -/
inductive JSVal where
  | undefV
  | nul
  | num (n : Int)
  | str (s : String)
  | boolV (b : Bool)
  | obj (fields : List (String × JSVal))
  | getterV (body : Expr)
  | refV (inner : JSVal)
  | live (path : List String)
  | liveC (depKey : String)

/-- One entry of `computedRegistry`: evaluation closure (`run`), the base
path of the receiver the closure captured at creation (`runBase`), the
memoized value (`last`), the evaluation timestamp (`lastRun`), plus the
ghost invocation counter `runCount`. -/
structure CEntry where
  run : Expr
  runBase : List String
  last : JSVal
  lastRun : Nat
  runCount : Nat

/-- The whole mutable state of the engine: module singletons
(`computedRegistry`, `dependencyGraph`, `currentTracker`), the root object
graph, one store's subscriber registry (`subs`), and ghost logs.  JavaScript
`Map`s are insertion-ordered association lists. -/
structure Engine where
  root : JSVal
  registry : List (String × CEntry)
  depGraph : List (CompId × List String)
  tracker : Option CompId
  subs : List Nat
  pinged : List Nat
  notifyLog : List (List String)
  clock : Nat

/-- Receiver of an `Expr` evaluation: `proxied base` is a proxy wrapper
whose absolute base path is `base` (the usual case — components run against
the root proxy, getter bodies against the proxy they were reached through);
`raw self` is a plain unwrapped object (reads do not go through traps). -/
inductive EMode where
  | proxied (base : List String)
  | raw (self : JSVal)

/-- Cursor of a chained property read: `prox v base` is the proxy wrapping
object `v` at absolute path `base`; `rawc v` is a bare value (e.g. a
memoized computed result, which the source returns unwrapped). -/
inductive Cursor where
  | prox (v : JSVal) (base : List String)
  | rawc (v : JSVal)

/-- Insertion-ordered association-list lookup (JavaScript `Map.get`). -/
def lookupA {α β : Type} [DecidableEq α] : List (α × β) → α → Option β
  | [], _ => none
  | (k, v) :: rest, key => if k = key then some v else lookupA rest key

/-- JavaScript `Map.set`: replace in place if the key exists (insertion
order is preserved), otherwise append. -/
def assocSet {α β : Type} [DecidableEq α] : List (α × β) → α → β → List (α × β)
  | [], key, v => [(key, v)]
  | (k, w) :: rest, key, v =>
      if k = key then (key, v) :: rest else (k, w) :: assocSet rest key v

/-- Update the value at a key in place, if present. -/
def assocUpdate {α β : Type} [DecidableEq α] : List (α × β) → α → (β → β) → List (α × β)
  | [], _, _ => []
  | (k, w) :: rest, key, f =>
      if k = key then (k, f w) :: rest else (k, w) :: assocUpdate rest key f

/-- `keyOf` from the source: canonical DepKey of a raw path, segments joined
with a dot. -/
def keyOf (path : List String) : String := String.intercalate "." path

/-- The reserved `REF_COMPUTED_PREFIX` tag and `computedKeyForPath`. -/
def ckeyOf (absPath : String) : String := "__computed__:" ++ absPath

/-- JavaScript's `s.startsWith(p)` on code units. -/
def strStartsWith (s p : String) : Bool := p.data.isPrefixOf s.data

/-- The ancestor/descendant match used both by `recomputeAffectedComputeds`
(line 120) and by subscriber notification (line 173):
`d === changed || d.startsWith(changed + ".") || changed.startsWith(d + ".")`. -/
def depMatches (d changed : String) : Bool :=
  d = changed || strStartsWith d (changed ++ ".") || strStartsWith changed (d ++ ".")

/-- `Set.add` on an insertion-ordered dependency set. -/
def addDep (s : List String) (d : String) : List String :=
  if d ∈ s then s else s ++ [d]

/-- `ensureDepSet(id).add(d)`: create the scope's set if missing, then add. -/
def addDepTo (st : Engine) (id : CompId) (d : String) : Engine :=
  { st with depGraph :=
      assocSet st.depGraph id (addDep ((lookupA st.depGraph id).getD []) d) }

/-- Own-property lookup on a plain object's field list (the prototype chain
of the plain objects handled by the engine contributes nothing relevant). -/
def lookupField : List (String × JSVal) → String → Option JSVal
  | [], _ => none
  | (k, v) :: rest, key => if k = key then some v else lookupField rest key

/-- Property write on a field list: overwrite in place, or append a fresh
property (JavaScript property-creation order). -/
def setField : List (String × JSVal) → String → JSVal → List (String × JSVal)
  | [], key, v => [(key, v)]
  | (k, w) :: rest, key, v =>
      if k = key then (key, v) :: rest else (k, w) :: setField rest key v

/-- Property deletion on a field list. -/
def removeField : List (String × JSVal) → String → List (String × JSVal)
  | [], _ => []
  | (k, w) :: rest, key =>
      if k = key then rest else (k, w) :: removeField rest key

/-- `isPrimitive` from the source (null, undefined, string, number, boolean;
bigint and symbol have no counterpart in the model).  The LivePrimitive
callables are functions, hence not primitive. -/
def isPrimitiveV : JSVal → Bool
  | .undefV | .nul | .num _ | .str _ | .boolV _ => true
  | _ => false

/-- `Object.is` as observable in this engine.  It is exact on primitives.
For objects and functions `Object.is` is reference identity; the value
model cannot represent identity, and every evaluation in this engine
constructs its result afresh, so `false` is the faithful answer there. -/
def jsIs : JSVal → JSVal → Bool
  | .undefV, .undefV => true
  | .nul, .nul => true
  | .num a, .num b => a = b
  | .str a, .str b => a = b
  | .boolV a, .boolV b => a = b
  | _, _ => false

/-- Plain (trap-free) data walk used to locate a proxy's target object from
the current root; getter-valued or missing intermediates yield undefined. -/
def rawValueAt : List String → JSVal → JSVal
  | [], v => v
  | k :: rest, .obj fields =>
      match lookupField fields k with
      | some w => rawValueAt rest w
      | none => .undefV
  | _ :: _, _ => .undefV

/-- `Reflect.set` through the data graph: returns the updated root and the
success flag.  Writing to an accessor-only property fails (`false`), as
does writing below a missing or non-object parent; the root is then
unchanged. -/
def setAtPath : List String → JSVal → JSVal → JSVal × Bool
  | [], w, _ => (w, false)
  | [k], .obj fields, nv =>
      match lookupField fields k with
      | some (.getterV _) => (.obj fields, false)
      | _ => (.obj (setField fields k nv), true)
  | [_], w, _ => (w, false)
  | k :: k2 :: rest, .obj fields, nv =>
      match lookupField fields k with
      | some child =>
          let r := setAtPath (k2 :: rest) child nv
          (.obj (setField fields k r.1), r.2)
      | none => (.obj fields, false)
  | _ :: _ :: _, w, _ => (w, false)

/-- `Reflect.deleteProperty` through the data graph: removing a configurable
own property (or a missing one) succeeds. -/
def deleteAtPath : List String → JSVal → JSVal × Bool
  | [], w => (w, false)
  | [k], .obj fields => (.obj (removeField fields k), true)
  | [_], w => (w, true)
  | k :: k2 :: rest, .obj fields =>
      match lookupField fields k with
      | some child =>
          let r := deleteAtPath (k2 :: rest) child
          (.obj (setField fields k r.1), r.2)
      | none => (.obj fields, true)
  | _ :: _ :: _, w => (w, true)

/-- Fresh engine for a newly created store (module singletons empty). -/
def mkEngine (root : JSVal) : Engine :=
  { root := root, registry := [], depGraph := [], tracker := none,
    subs := [], pinged := [], notifyLog := [], clock := 0 }

/-- Ghost bump of a computed's invocation counter, placed exactly where
`entry.run()` is called. -/
def bumpRunCount (l : List (String × CEntry)) (k : String) : List (String × CEntry) :=
  assocUpdate l k (fun e => { e with runCount := e.runCount + 1 })

/-- `entry.last = val; entry.lastRun = Date.now()` on success. -/
def setLastEntry (l : List (String × CEntry)) (k : String) (v : JSVal) (t : Nat) :
    List (String × CEntry) :=
  assocUpdate l k (fun e => { e with last := v, lastRun := t })

/-- The state `runComputed` installs before invoking the evaluation
function: the computed's dependency set is reset to a fresh empty set
(`dependencyGraph.set(depKey, new Set())`), the tracker is set to the
computed, and the ghost run counter is bumped for the imminent call. -/
def computedEntryState (st : Engine) (depKey : String) : Engine :=
  { st with depGraph := assocSet st.depGraph (.computed depKey) [],
            tracker := some (.computed depKey),
            registry := bumpRunCount st.registry depKey }

/-- Result of one interpreter layer: `none` is fuel exhaustion, `.error` a
propagating JavaScript exception. -/
abbrev ERes (α : Type) := Except Unit α

/-- The six mutually recursive operations of the read side, tied through a
fuel parameter (see `engineFns`). -/
structure EngineFns where
  evalF : Engine → EMode → Expr → Option (Engine × ERes JSVal)
  walkF : Engine → Cursor → List String → Option (Engine × ERes JSVal)
  getF : Engine → List (String × JSVal) → List String → String → Option (Engine × ERes Cursor)
  rawF : Engine → JSVal → String → Option (Engine × ERes JSVal)
  ensureF : Engine → String → Expr → List String → Option (Engine × ERes String)
  runF : Engine → String → Option (Engine × ERes JSVal)

/-- Fuel-zero layer: everything is exhausted. -/
def fnsZero : EngineFns :=
  { evalF := fun _ _ _ => none
    walkF := fun _ _ _ => none
    getF := fun _ _ _ _ => none
    rawF := fun _ _ _ => none
    ensureF := fun _ _ _ _ => none
    runF := fun _ _ => none }

/-- One layer of the interpreter for user code; `p` is the next-lower fuel
layer of the whole read side. -/
def stepEval (p : EngineFns) (st : Engine) (mode : EMode) (e : Expr) :
    Option (Engine × ERes JSVal) :=
    match e with
    | .litNum n => some (st, .ok (.num n))
    | .litStr s => some (st, .ok (.str s))
    | .litBool b => some (st, .ok (.boolV b))
    | .litUndefV => some (st, .ok .undefV)
    | .readPath segs =>
        match mode with
        | .proxied base => p.walkF st (.prox (rawValueAt base st.root) base) segs
        | .raw self => p.walkF st (.rawc self) segs
    | .seq a b =>
        match p.evalF st mode a with
        | none => none
        | some (st1, .error u) => some (st1, .error u)
        | some (st1, .ok _) => p.evalF st1 mode b
    | .throwE => some (st, .error ())

/-- One layer of the chained-read walker. -/
def stepWalk (p : EngineFns) (st : Engine) (cur : Cursor) (segs : List String) :
    Option (Engine × ERes JSVal) :=
    match segs with
    | [] =>
        match cur with
        | .prox v _ => some (st, .ok v)
        | .rawc v => some (st, .ok v)
    | k :: rest =>
        match cur with
        | .prox v base =>
            match v with
            | .obj fields =>
                match p.getF st fields base k with
                | none => none
                | some (st1, .error u) => some (st1, .error u)
                | some (st1, .ok cur1) => p.walkF st1 cur1 rest
            | _ =>
                match p.rawF st v k with
                | none => none
                | some (st1, .error u) => some (st1, .error u)
                | some (st1, .ok v1) => p.walkF st1 (.rawc v1) rest
        | .rawc v =>
            match p.rawF st v k with
            | none => none
            | some (st1, .error u) => some (st1, .error u)
            | some (st1, .ok v1) => p.walkF st1 (.rawc v1) rest

/-- One layer of the `get` trap. -/
def stepGet (p : EngineFns) (st : Engine) (fields : List (String × JSVal))
    (base : List String) (key : String) : Option (Engine × ERes Cursor) :=
    let curPath := base ++ [key]
    match lookupField fields key with
    | some v =>
        match v with
        | .getterV body =>
            match p.ensureF st (keyOf curPath) body base with
            | none => none
            | some (st1, .error u) => some (st1, .error u)
            | some (st1, .ok depKey) =>
                match st1.tracker with
                | some t =>
                    let st2 := addDepTo st1 t depKey
                    match lookupA st2.registry depKey with
                    | some entry => some (st2, .ok (.rawc entry.last))
                    | none => some (st2, .ok (.rawc .undefV))
                | none => some (st1, .ok (.rawc (.liveC depKey)))
        | .refV inner =>
            match st.tracker with
            | some t => some (addDepTo st t (keyOf curPath), .ok (.rawc inner))
            | none => some (st, .ok (.rawc inner))
        | w =>
            if isPrimitiveV w then
              match st.tracker with
              | some t => some (addDepTo st t (keyOf curPath), .ok (.rawc w))
              | none => some (st, .ok (.rawc (.live curPath)))
            else
              match w with
              | .obj _ => some (st, .ok (.prox w curPath))
              | _ => some (st, .ok (.rawc w))
    | none =>
        match st.tracker with
        | some t => some (addDepTo st t (keyOf curPath), .ok (.rawc .undefV))
        | none => some (st, .ok (.rawc (.live curPath)))

/-- One layer of the plain (unproxied) property read. -/
def stepRaw (p : EngineFns) (st : Engine) (v : JSVal) (key : String) :
    Option (Engine × ERes JSVal) :=
    match v with
    | .obj fields =>
        match lookupField fields key with
        | some w =>
            match w with
            | .getterV body => p.evalF st (.raw (.obj fields)) body
            | _ => some (st, .ok w)
        | none => some (st, .ok .undefV)
    | .refV inner =>
        if key = "value" then some (st, .ok inner) else some (st, .ok .undefV)
    | _ => some (st, .ok .undefV)

/-- One layer of `ensureComputed`. -/
def stepEnsure (p : EngineFns) (st : Engine) (absPath : String) (body : Expr)
    (runBase : List String) : Option (Engine × ERes String) :=
    let depKey := ckeyOf absPath
    if (lookupA st.registry depKey).isSome then some (st, .ok depKey)
    else
      let st1 := { st with registry := st.registry ++
        [(depKey, { run := body, runBase := runBase, last := .undefV, lastRun := 0, runCount := 0 })] }
      match p.runF st1 depKey with
      | none => none
      | some (st2, .error u) => some (st2, .error u)
      | some (st2, .ok _) => some (st2, .ok depKey)

/-- One layer of `runComputed`. -/
def stepRun (p : EngineFns) (st : Engine) (depKey : String) :
    Option (Engine × ERes JSVal) :=
    match lookupA st.registry depKey with
    | none => some (st, .ok .undefV)
    | some entry =>
        match p.evalF (computedEntryState st depKey) (.proxied entry.runBase) entry.run with
        | none => none
        | some (st3, .error u) => some ({ st3 with tracker := none }, .error u)
        | some (st3, .ok val) =>
            let st4 := { st3 with
              registry := setLastEntry st3.registry depKey val st3.clock,
              clock := st3.clock + 1 }
            some ({ st4 with tracker := none }, .ok val)

/-- One layer of the mutually recursive read side. -/
def fnsStep (p : EngineFns) : EngineFns :=
  { evalF := stepEval p, walkF := stepWalk p, getF := stepGet p,
    rawF := stepRaw p, ensureF := stepEnsure p, runF := stepRun p }

/-- The fuel-indexed family of read-side operations. -/
def engineFns : Nat → EngineFns
  | 0 => fnsZero
  | fuel + 1 => fnsStep (engineFns fuel)

/-- Interpreter for user code (getter bodies, component functions). -/
def evalE (fuel : Nat) : Engine → EMode → Expr → Option (Engine × ERes JSVal) :=
  (engineFns fuel).evalF

/-- Chained property reads along a cursor. -/
def proxyWalk (fuel : Nat) : Engine → Cursor → List String → Option (Engine × ERes JSVal) :=
  (engineFns fuel).walkF

/-- The `get` trap of `makeProxy` for a string property, at a node whose raw
target has fields `fields` and absolute base path `base`. -/
def proxyGet (fuel : Nat) :
    Engine → List (String × JSVal) → List String → String → Option (Engine × ERes Cursor) :=
  (engineFns fuel).getF

/-- Plain (unproxied) property read, invoking accessor bodies raw. -/
def rawField (fuel : Nat) : Engine → JSVal → String → Option (Engine × ERes JSVal) :=
  (engineFns fuel).rawF

/-- `ensureComputed`: register-and-evaluate on first access, no-op later. -/
def ensureComputed (fuel : Nat) :
    Engine → String → Expr → List String → Option (Engine × ERes String) :=
  (engineFns fuel).ensureF

/-- `runComputed`: reset the computed's dependency set, evaluate under its
own tracking scope, memoize on success, and null the tracker on every exit. -/
def runComputed (fuel : Nat) : Engine → String → Option (Engine × ERes JSVal) :=
  (engineFns fuel).runF

/-- Inner scan of `recomputeAffectedComputeds` for one changed key: walk the
live `dependencyGraph` by index (a JavaScript `Map` iterator sees entries
appended during iteration, and `Map.set` on an existing key keeps its
position), skip components, re-run every computed whose current dependency
set matches the changed key, and record the ones whose memoized value
actually changed.  Returns the updated seen/changed accumulators and the
keys pushed onto the worklist, in push order. -/
def scanAll (fuel : Nat) (st : Engine) (idx : Nat) (changedKey : String)
    (seen changed pushed : List String) :
    Option (Engine × ERes (List String × List String × List String)) :=
  match fuel with
  | 0 => none
  | f + 1 =>
    match st.depGraph.drop idx with
    | [] => some (st, .ok (seen, changed, pushed))
    | (tracker, deps) :: _ =>
        match tracker with
        | .component _ => scanAll f st (idx + 1) changedKey seen changed pushed
        | .computed k =>
            if deps.any (fun d => depMatches d changedKey) then
              match lookupA st.registry k with
              | none => scanAll f st (idx + 1) changedKey seen changed pushed
              | some entry =>
                  match runComputed f st k with
                  | none => none
                  | some (st1, .error u) => some (st1, .error u)
                  | some (st1, .ok _) =>
                      let lastNow := match lookupA st1.registry k with
                        | some e1 => e1.last
                        | none => JSVal.undefV
                      if !(jsIs entry.last lastNow) && k ∉ seen then
                        scanAll f st1 (idx + 1) changedKey
                          (seen ++ [k]) (changed ++ [k]) (pushed ++ [k])
                      else
                        scanAll f st1 (idx + 1) changedKey seen changed pushed
            else scanAll f st (idx + 1) changedKey seen changed pushed

/-- Worklist loop of `recomputeAffectedComputeds` (`queue.shift()` is FIFO;
keys pushed while scanning are appended behind the remaining queue). -/
def recomputeLoop (fuel : Nat) (st : Engine) (queue seen changed : List String) :
    Option (Engine × ERes (List String)) :=
  match fuel with
  | 0 => none
  | f + 1 =>
    match queue with
    | [] => some (st, .ok changed)
    | c :: rest =>
        match scanAll f st 0 c seen changed [] with
        | none => none
        | some (st1, .error u) => some (st1, .error u)
        | some (st1, .ok (seen1, changed1, pushed)) =>
            recomputeLoop f st1 (rest ++ pushed) seen1 changed1

/-- `recomputeAffectedComputeds(startKeys)`: eagerly re-evaluates every
computed transitively affected by the start keys and returns the closure of
computed DepKeys whose memoized value actually changed. -/
def recomputeAffectedComputeds (fuel : Nat) (st : Engine) (startKeys : List String) :
    Option (Engine × ERes (List String)) :=
  recomputeLoop fuel st startKeys startKeys []

/-- The subscriber-notification loop of `notifyPathChange`, as the sequence
of component ids whose callback is invoked, in `dependencyGraph` insertion
order: a component is pinged when its recorded dependency set matches the
changed raw key (ancestor/descendant), or — checked only when the first
test failed and some computed value changed — contains a changed computed
DepKey; the callback fires only if the component is currently subscribed. -/
def pingList : List (CompId × List String) → List Nat → String → List String → List Nat
  | [], _, _, _ => []
  | (CompId.computed _, _) :: rest, subs, changedRaw, cc =>
      pingList rest subs changedRaw cc
  | (CompId.component n, deps) :: rest, subs, changedRaw, cc =>
      if (deps.any (fun d => depMatches d changedRaw) ||
          (!cc.isEmpty && deps.any (fun d => cc.contains d))) = true then
        if n ∈ subs then n :: pingList rest subs changedRaw cc
        else pingList rest subs changedRaw cc
      else pingList rest subs changedRaw cc

/-- `notifyPathChange(path)`: eagerly recompute all affected computeds, then
ping the subscribed components (ghost-logged in `pinged`).  The invocation
itself is ghost-logged in `notifyLog`.  An exception thrown by a computed
re-evaluation propagates out of the write pass. -/
def notifyPathChange (fuel : Nat) (st : Engine) (path : List String) :
    Option (Engine × ERes Unit) :=
  match fuel with
  | 0 => none
  | f + 1 =>
    let changedRaw := keyOf path
    let st0 := { st with notifyLog := st.notifyLog ++ [path] }
    match recomputeAffectedComputeds f st0 [changedRaw] with
    | none => none
    | some (st1, .error u) => some (st1, .error u)
    | some (st1, .ok cc) =>
        some ({ st1 with pinged :=
          st1.pinged ++ pingList st1.depGraph st1.subs changedRaw cc }, .ok ())

/-- The `set` trap of `makeProxy`: apply `Reflect.set` to the underlying
data, then unconditionally run the write-invalidation pass with the
absolute path, and finally return `Reflect.set`'s success flag. -/
def proxySet (fuel : Nat) (st : Engine) (base : List String) (key : String)
    (newVal : JSVal) : Option (Engine × ERes Bool) :=
  match fuel with
  | 0 => none
  | f + 1 =>
    let r := setAtPath (base ++ [key]) st.root newVal
    let st1 := { st with root := r.1 }
    match notifyPathChange f st1 (base ++ [key]) with
    | none => none
    | some (st2, .error u) => some (st2, .error u)
    | some (st2, .ok _) => some (st2, .ok r.2)

/-- The `deleteProperty` trap of `makeProxy`: delete, then unconditionally
run the write-invalidation pass with the absolute path. -/
def proxyDelete (fuel : Nat) (st : Engine) (base : List String) (key : String) :
    Option (Engine × ERes Bool) :=
  match fuel with
  | 0 => none
  | f + 1 =>
    let r := deleteAtPath (base ++ [key]) st.root
    let st1 := { st with root := r.1 }
    match notifyPathChange f st1 (base ++ [key]) with
    | none => none
    | some (st2, .error u) => some (st2, .error u)
    | some (st2, .ok _) => some (st2, .ok r.2)

/-- `withComponentTracking(id, fn)`: give the component a fresh empty
dependency set, install it as the active tracker, run the body against the
root proxy, and on exit (normal or exceptional) set the tracker to null. -/
def withComponentTracking (fuel : Nat) (st : Engine) (n : Nat) (body : Expr) :
    Option (Engine × ERes JSVal) :=
  match fuel with
  | 0 => none
  | f + 1 =>
    let st1 := { st with depGraph := assocSet st.depGraph (.component n) [],
                         tracker := some (.component n) }
    match evalE f st1 (.proxied []) body with
    | none => none
    | some (st2, r) => some ({ st2 with tracker := none }, r)

/-- `subscribeComponent(id, cb)`: register the component's callback (the
model records the subscribed ids; callbacks are opaque notifications whose
invocations are ghost-logged in `pinged`). -/
def subscribeComponent (st : Engine) (n : Nat) : Engine :=
  { st with subs := st.subs ++ [n] }

/-! ### Identity model of the wrapper cache

The value-level model above abstracts object identity away, so the
`WeakMap`-based caches of `makeProxy`/`proxy` (lines 281–283, 363–365,
380–383) get their own small heap model: raw objects and proxies are
addresses, and the caches are identity maps.  `makeProxyH` is the caching
skeleton of `makeProxy`; `proxyH` is `proxy` (create the store, then wrap
the root); the `get` trap's nested-object branch wraps the child object by
calling `makeProxy` on the child's identity, i.e. `makeProxyH` again. -/

structure Heap where
  cache : List (Nat × Nat)
  rootStores : List (Nat × Nat)
  proxyStores : List (Nat × Nat)
  nextProxy : Nat
  nextStore : Nat

/-- `makeProxy`'s identity skeleton: return the cached wrapper if the target
was wrapped before, otherwise allocate a fresh wrapper and cache it. -/
def makeProxyH (h : Heap) (target : Nat) (storeId : Nat) : Heap × Nat :=
  match lookupA h.cache target with
  | some cached => (h, cached)
  | none =>
      ({ h with cache := (target, h.nextProxy) :: h.cache,
                proxyStores := (h.nextProxy, storeId) :: h.proxyStores,
                nextProxy := h.nextProxy + 1 }, h.nextProxy)

/-- `createStore(root)`: allocate a store and index it by the root identity. -/
def createStoreH (h : Heap) (root : Nat) : Heap × Nat :=
  ({ h with rootStores := (root, h.nextStore) :: h.rootStores,
            nextStore := h.nextStore + 1 }, h.nextStore)

/-- `proxy(initial)`: create the store for the root, then wrap the root. -/
def proxyH (h : Heap) (root : Nat) : Heap × Nat :=
  let r := createStoreH h root
  makeProxyH r.1 root r.2

/-! ### Observations on engine runs -/

/-- State component of a run, with a default for fuel exhaustion. -/
def stateOf {α : Type} (o : Option (Engine × ERes α)) (d : Engine) : Engine :=
  match o with
  | some (st, _) => st
  | none => d

/-- Result component of a run. -/
def resOf {α : Type} (o : Option (Engine × ERes α)) : Option (ERes α) :=
  match o with
  | some (_, r) => some r
  | none => none

/-- Ghost invocation count of a computed's evaluation function. -/
def runCountAt (st : Engine) (k : String) : Option Nat :=
  (lookupA st.registry k).map (fun e => e.runCount)

/-- Memoized value of a computed. -/
def lastAt (st : Engine) (k : String) : Option JSVal :=
  (lookupA st.registry k).map (fun e => e.last)

/-- Evaluation timestamp of a computed. -/
def lastRunAt (st : Engine) (k : String) : Option Nat :=
  (lookupA st.registry k).map (fun e => e.lastRun)

/-- Published dependency set of a tracking scope. -/
def depsOf (st : Engine) (id : CompId) : Option (List String) :=
  lookupA st.depGraph id

/-- The read side never touches the ghost `notifyLog` (only
`notifyPathChange` appends to it): statement for one fuel layer. -/
def PreservesLog (f : Nat) : Prop :=
  (∀ st m e st' r, evalE f st m e = some (st', r) → st'.notifyLog = st.notifyLog) ∧
  (∀ st c segs st' r, proxyWalk f st c segs = some (st', r) → st'.notifyLog = st.notifyLog) ∧
  (∀ st fields base key st' r, proxyGet f st fields base key = some (st', r) →
    st'.notifyLog = st.notifyLog) ∧
  (∀ st v key st' r, rawField f st v key = some (st', r) → st'.notifyLog = st.notifyLog) ∧
  (∀ st a b rb st' r, ensureComputed f st a b rb = some (st', r) →
    st'.notifyLog = st.notifyLog) ∧
  (∀ st k st' r, runComputed f st k = some (st', r) → st'.notifyLog = st.notifyLog)

/-! ### Concrete scenarios used by the claim theorems -/

/-- Demo state: a raw field `a` holding 1 and a computed property `c` whose
getter reads `this.a`. -/
def demoRoot : JSVal := .obj [("a", .num 1), ("c", .getterV (.readPath ["a"]))]

/-- DepKey of the demo computed `c`. -/
def demoK : String := ckeyOf "c"

/-- Fresh engine for `proxy(demoRoot)`. -/
def demoSt0 : Engine := mkEngine demoRoot

/-- State after component 1 renders once, reading `c` under tracking. -/
def demoSt1 : Engine :=
  stateOf (withComponentTracking 20 demoSt0 1 (.readPath ["c"])) demoSt0

/-- State after the write `state.a = 2` through the proxy. -/
def demoSt2 : Engine := stateOf (proxySet 20 demoSt1 [] "a" (.num 2)) demoSt1

/-- Raw fields of the root after that write. -/
def demoFields2 : List (String × JSVal) :=
  [("a", .num 2), ("c", .getterV (.readPath ["a"]))]

/-- State after a read of `c` following the write. -/
def demoSt3 : Engine := stateOf (proxyGet 20 demoSt2 demoFields2 [] "c") demoSt2

/-- A component body that reads the computed `c` and then the raw `a`. -/
def sharedBody : Expr := .seq (.readPath ["c"]) (.readPath ["a"])

/-- First run of component 1 with `sharedBody` on a fresh engine. -/
def c3St1 : Engine := stateOf (withComponentTracking 20 demoSt0 1 sharedBody) demoSt0

/-- Second run of component 1 with the same body on the resulting engine. -/
def c3St2 : Engine := stateOf (withComponentTracking 20 c3St1 1 sharedBody) c3St1

/-- Component 2 rendering against the engine in which `c` is registered. -/
def c4St : Engine :=
  stateOf (withComponentTracking 20 demoSt1 2 (.readPath ["c"])) demoSt1

/-- A registered computed with a trivial evaluation function. -/
def trivEntry : CEntry :=
  { run := .litNum 1, runBase := [], last := .undefV, lastRun := 0, runCount := 0 }

/-- An engine with an active component scope and a registered computed. -/
def nestSt : Engine :=
  { mkEngine (.obj []) with
      tracker := some (.component 7), registry := [("k", trivEntry)] }

/-- Root whose computed property `b` has a throwing getter. -/
def throwRoot : JSVal := .obj [("b", .getterV .throwE)]

/-- Field list of `throwRoot`. -/
def throwFields : List (String × JSVal) := [("b", .getterV .throwE)]

/-- Fresh engine over `throwRoot`. -/
def bSt0 : Engine := mkEngine throwRoot

/-- State after the first (throwing) read of `b`. -/
def bSt1 : Engine := stateOf (proxyGet 20 bSt0 throwFields [] "b") bSt0

/-- DepKey of the throwing computed. -/
def bK : String := ckeyOf "b"

/-- A registered throwing computed with a previously memoized value. -/
def thrEntry : CEntry :=
  { run := .throwE, runBase := [], last := .num 7, lastRun := 3, runCount := 5 }

/-- Engine holding `thrEntry` under key `kk`. -/
def thrSt : Engine := { mkEngine (.obj []) with registry := [("kk", thrEntry)] }

/-- An array modelled as JavaScript does: an object with index properties
and a `length` property; element 0 exists, length is 1. -/
def arrRoot : JSVal :=
  .obj [("items", .obj [("0", .obj [("qty", .num 1)]), ("length", .num 1)])]

/-- A subscribed component (id 5) whose only recorded dependency is the
array's `length`. -/
def arrSt : Engine :=
  { mkEngine arrRoot with
      depGraph := [(.component 5, ["items.length"])], subs := [5] }

/-- State after inserting element 1 by index assignment through the proxy. -/
def arrSt1 : Engine :=
  stateOf (proxySet 20 arrSt ["items"] "1" (.obj [("qty", .num 2)])) arrSt

/-- A subscribed component (id 1) that only read `items[3].qty`. -/
def pSt : Engine :=
  { mkEngine (.obj []) with
      depGraph := [(.component 1, ["items.3.qty"])], subs := [1] }

/-- `pSt` with the write to `items[3].qty` already ghost-logged. -/
def pStQ : Engine := { pSt with notifyLog := [["items", "3", "qty"]] }

/-- `pSt` with the write to `items[7].price` already ghost-logged. -/
def pStP : Engine := { pSt with notifyLog := [["items", "7", "price"]] }

/-- Raw fields of `demoRoot`. -/
def demoFields1 : List (String × JSVal) :=
  [("a", .num 1), ("c", .getterV (.readPath ["a"]))]

/-- `demoSt1` with an active component scope installed (a second component
about to read `c`). -/
def trackedSt : Engine := { demoSt1 with tracker := some (.component 4) }

/-- The registry entry for the demo computed `c` as it stands in `demoSt1`:
evaluated once, memoized value 1. -/
def demoEntry : CEntry :=
  { run := .readPath ["a"], runBase := [], last := .num 1, lastRun := 0, runCount := 1 }

/-! ### Small lemmas -/

theorem engineFns_evalF (f : Nat) : (engineFns f).evalF = evalE f := rfl

theorem engineFns_walkF (f : Nat) : (engineFns f).walkF = proxyWalk f := rfl

theorem engineFns_getF (f : Nat) : (engineFns f).getF = proxyGet f := rfl

theorem engineFns_rawF (f : Nat) : (engineFns f).rawF = rawField f := rfl

theorem engineFns_ensureF (f : Nat) : (engineFns f).ensureF = ensureComputed f := rfl

theorem engineFns_runF (f : Nat) : (engineFns f).runF = runComputed f := rfl

theorem evalE_succ (f : Nat) : evalE (f + 1) = stepEval (engineFns f) := rfl

theorem proxyWalk_succ (f : Nat) : proxyWalk (f + 1) = stepWalk (engineFns f) := rfl

theorem proxyGet_succ (f : Nat) : proxyGet (f + 1) = stepGet (engineFns f) := rfl

theorem rawField_succ (f : Nat) : rawField (f + 1) = stepRaw (engineFns f) := rfl

theorem ensureComputed_succ (f : Nat) :
    ensureComputed (f + 1) = stepEnsure (engineFns f) := rfl

theorem runComputed_succ (f : Nat) : runComputed (f + 1) = stepRun (engineFns f) := rfl

theorem evalE_zero (st : Engine) (m : EMode) (e : Expr) : evalE 0 st m e = none := rfl

theorem proxyWalk_zero (st : Engine) (c : Cursor) (segs : List String) :
    proxyWalk 0 st c segs = none := rfl

theorem proxyGet_zero (st : Engine) (fields : List (String × JSVal)) (base : List String)
    (key : String) : proxyGet 0 st fields base key = none := rfl

theorem rawField_zero (st : Engine) (v : JSVal) (key : String) : rawField 0 st v key = none := rfl

theorem ensureComputed_zero (st : Engine) (a : String) (b : Expr) (rb : List String) :
    ensureComputed 0 st a b rb = none := rfl

theorem runComputed_zero (st : Engine) (k : String) : runComputed 0 st k = none := rfl


@[simp] theorem addDepTo_registry (st : Engine) (id : CompId) (d : String) :
    (addDepTo st id d).registry = st.registry := rfl

@[simp] theorem addDepTo_tracker (st : Engine) (id : CompId) (d : String) :
    (addDepTo st id d).tracker = st.tracker := rfl

@[simp] theorem addDepTo_notifyLog (st : Engine) (id : CompId) (d : String) :
    (addDepTo st id d).notifyLog = st.notifyLog := rfl

@[simp] theorem addDepTo_subs (st : Engine) (id : CompId) (d : String) :
    (addDepTo st id d).subs = st.subs := rfl

@[simp] theorem computedEntryState_notifyLog (st : Engine) (k : String) :
    (computedEntryState st k).notifyLog = st.notifyLog := rfl

@[simp] theorem computedEntryState_tracker (st : Engine) (k : String) :
    (computedEntryState st k).tracker = some (.computed k) := rfl

theorem lookupA_assocUpdate {β : Type} (l : List (String × β)) (k : String) (f : β → β) :
    lookupA (assocUpdate l k f) k = (lookupA l k).map f := by
  induction l with
  | nil => rfl
  | cons hd tl ih =>
      obtain ⟨k1, v1⟩ := hd
      by_cases hk : k1 = k
      · subst hk; simp [lookupA, assocUpdate]
      · simp [lookupA, assocUpdate, hk, ih]

theorem lookupA_bumpRunCount (l : List (String × CEntry)) (k : String) :
    lookupA (bumpRunCount l k) k =
      (lookupA l k).map (fun e => { e with runCount := e.runCount + 1 }) :=
  lookupA_assocUpdate l k _

theorem preservesLog : ∀ f, PreservesLog f := by
  intro f
  induction f with
  | zero =>
      refine ⟨?_, ?_, ?_, ?_, ?_, ?_⟩
      · intro st m e st' r h; exact Option.noConfusion h
      · intro st c segs st' r h; exact Option.noConfusion h
      · intro st fields base key st' r h; exact Option.noConfusion h
      · intro st v key st' r h; exact Option.noConfusion h
      · intro st a b rb st' r h; exact Option.noConfusion h
      · intro st k st' r h; exact Option.noConfusion h
  | succ f ih =>
      obtain ⟨ihE, ihW, ihG, ihR, ihEn, ihRun⟩ := ih
      refine ⟨?_, ?_, ?_, ?_, ?_, ?_⟩
      · intro st m e st' r h
        rw [evalE_succ] at h
        cases e with
        | litNum n => simp only [stepEval] at h; cases h; rfl
        | litStr s => simp only [stepEval] at h; cases h; rfl
        | litBool b => simp only [stepEval] at h; cases h; rfl
        | litUndefV => simp only [stepEval] at h; cases h; rfl
        | throwE => simp only [stepEval] at h; cases h; rfl
        | readPath segs =>
            cases m with
            | proxied base => simp only [stepEval] at h; exact ihW _ _ _ _ _ h
            | raw self => simp only [stepEval] at h; exact ihW _ _ _ _ _ h
        | seq a b =>
            simp only [stepEval] at h
            split at h
            · exact Option.noConfusion h
            · rename_i st1 u heq
              cases h
              exact ihE _ _ _ _ _ heq
            · rename_i st1 v heq
              exact (ihE _ _ _ _ _ h).trans (ihE _ _ _ _ _ heq)
      · intro st c segs st' r h
        rw [proxyWalk_succ] at h
        cases segs with
        | nil =>
            simp only [stepWalk] at h
            split at h <;> (cases h; rfl)
        | cons k rest =>
            cases c with
            | rawc v =>
                simp only [stepWalk] at h
                split at h
                · exact Option.noConfusion h
                · rename_i st1 u heq
                  cases h
                  exact ihR _ _ _ _ _ heq
                · rename_i st1 v1 heq
                  exact (ihW _ _ _ _ _ h).trans (ihR _ _ _ _ _ heq)
            | prox v base =>
                simp only [stepWalk] at h
                split at h
                · rename_i fields
                  split at h
                  · exact Option.noConfusion h
                  · rename_i st1 u heq
                    cases h
                    exact ihG _ _ _ _ _ _ heq
                  · rename_i st1 cur1 heq
                    exact (ihW _ _ _ _ _ h).trans (ihG _ _ _ _ _ _ heq)
                · split at h
                  · exact Option.noConfusion h
                  · rename_i st1 u heq
                    cases h
                    exact ihR _ _ _ _ _ heq
                  · rename_i st1 v1 heq
                    exact (ihW _ _ _ _ _ h).trans (ihR _ _ _ _ _ heq)
      · intro st fields base key st' r h
        rw [proxyGet_succ] at h
        simp only [stepGet] at h
        split at h
        · -- present property
          split at h
          · -- computed getter
            split at h
            · exact Option.noConfusion h
            · rename_i st1 u heq
              cases h
              exact ihEn _ _ _ _ _ _ heq
            · rename_i st1 dk heq
              split at h
              · split at h <;> (cases h; simpa using ihEn _ _ _ _ _ _ heq)
              · cases h
                exact ihEn _ _ _ _ _ _ heq
          · -- ref wrapper
            split at h <;> (cases h; simp)
          · -- plain data value
            split at h
            · split at h <;> (cases h; simp)
            · split at h <;> (cases h; rfl)
        · -- absent property
          split at h <;> (cases h; simp)
      · intro st v key st' r h
        rw [rawField_succ] at h
        simp only [stepRaw] at h
        split at h
        · -- plain object
          split at h
          · -- present field
            split at h
            · exact ihE _ _ _ _ _ h
            · cases h; rfl
          · cases h; rfl
        · -- ref wrapper
          split at h <;> (cases h; rfl)
        · cases h; rfl
      · intro st a b rb st' r h
        rw [ensureComputed_succ] at h
        simp only [stepEnsure] at h
        split at h
        · cases h; rfl
        · split at h
          · exact Option.noConfusion h
          · rename_i st2 u heq
            cases h
            have hx := ihRun _ _ _ _ heq
            exact hx
          · rename_i st2 v heq
            cases h
            have hx := ihRun _ _ _ _ heq
            exact hx
      · intro st k st' r h
        rw [runComputed_succ] at h
        simp only [stepRun] at h
        split at h
        · cases h; rfl
        · rename_i entry hentry
          split at h
          · exact Option.noConfusion h
          · rename_i st3 u heq
            cases h
            have hx := ihE _ _ _ _ _ heq
            exact hx
          · rename_i st3 v heq
            cases h
            have hx := ihE _ _ _ _ _ heq
            exact hx

theorem scanAll_log : ∀ f st idx c seen changed pushed st' r,
    scanAll f st idx c seen changed pushed = some (st', r) →
    st'.notifyLog = st.notifyLog := by
  intro f
  induction f with
  | zero => intro st idx c seen changed pushed st' r h; exact Option.noConfusion h
  | succ f ih =>
      intro st idx c seen changed pushed st' r h
      simp only [scanAll] at h
      split at h
      · cases h; rfl
      · split at h
        · exact ih _ _ _ _ _ _ _ _ h
        · split at h
          · split at h
            · exact ih _ _ _ _ _ _ _ _ h
            · rename_i entry hentry
              split at h
              · exact Option.noConfusion h
              · rename_i st1 u heq
                cases h
                exact (preservesLog f).2.2.2.2.2 _ _ _ _ heq
              · rename_i st1 v heq
                have hrun := (preservesLog f).2.2.2.2.2 _ _ _ _ heq
                split at h
                · exact (ih _ _ _ _ _ _ _ _ h).trans hrun
                · exact (ih _ _ _ _ _ _ _ _ h).trans hrun
          · exact ih _ _ _ _ _ _ _ _ h

theorem recomputeLoop_log : ∀ f st queue seen changed st' r,
    recomputeLoop f st queue seen changed = some (st', r) →
    st'.notifyLog = st.notifyLog := by
  intro f
  induction f with
  | zero => intro st queue seen changed st' r h; exact Option.noConfusion h
  | succ f ih =>
      intro st queue seen changed st' r h
      simp only [recomputeLoop] at h
      split at h
      · cases h; rfl
      · split at h
        · exact Option.noConfusion h
        · rename_i st1 u heq
          cases h
          exact scanAll_log _ _ _ _ _ _ _ _ _ heq
        · rename_i st1 seen1 changed1 pushed heq
          exact (ih _ _ _ _ _ _ h).trans (scanAll_log _ _ _ _ _ _ _ _ _ heq)

/-- `notifyPathChange` appends exactly one entry — its own path — to the
(ghost) invalidation log: the eager recompute pass never notifies. -/
theorem notify_log (f : Nat) (st : Engine) (path : List String) (st' : Engine)
    (r : ERes Unit) (h : notifyPathChange f st path = some (st', r)) :
    st'.notifyLog = st.notifyLog ++ [path] := by
  cases f with
  | zero => exact Option.noConfusion h
  | succ f =>
      simp only [notifyPathChange, recomputeAffectedComputeds] at h
      split at h
      · exact Option.noConfusion h
      · rename_i st1 u heq
        cases h
        exact recomputeLoop_log _ _ _ _ _ _ _ heq
      · rename_i st1 cc heq
        cases h
        exact recomputeLoop_log _ _ _ _ _ _ _ heq

/-- The boolean ping condition of `notifyPathChange`, in logical form.  The
`!cc.isEmpty` guard in the source is redundant exactly as this equivalence
shows: a member of `cc` can exist only when `cc` is nonempty. -/
theorem shouldPing_iff (deps : List String) (raw : String) (cc : List String) :
    ((deps.any fun d => depMatches d raw) ||
      (!cc.isEmpty && deps.any fun d => cc.contains d)) = true ↔
      ((∃ d ∈ deps, depMatches d raw = true) ∨ ∃ d ∈ deps, d ∈ cc) := by
  simp only [Bool.or_eq_true, Bool.and_eq_true, List.any_eq_true]
  constructor
  · rintro (h1 | ⟨h0, d, hd, hdc⟩)
    · exact .inl h1
    · exact .inr ⟨d, hd, by simpa using hdc⟩
  · rintro (h1 | ⟨d, hd, hdc⟩)
    · exact .inl h1
    · refine .inr ⟨?_, d, hd, by simpa using hdc⟩
      cases cc with
      | nil => cases hdc
      | cons c cs => rfl

/-- A component is pinged exactly when it is subscribed and some entry of
the dependency graph records for it a dependency that either matches the
changed raw key (ancestor/descendant at segment boundaries) or is one of
the computed keys whose value changed. -/
theorem mem_pingList (g : List (CompId × List String)) (subs : List Nat)
    (raw : String) (cc : List String) (n : Nat) :
    n ∈ pingList g subs raw cc ↔
      ∃ deps, (CompId.component n, deps) ∈ g ∧
        ((∃ d ∈ deps, depMatches d raw = true) ∨ ∃ d ∈ deps, d ∈ cc) ∧ n ∈ subs := by
  induction g with
  | nil => simp [pingList]
  | cons hd tl ih =>
      obtain ⟨id, deps⟩ := hd
      cases id with
      | computed k =>
          rw [pingList, ih]
          constructor
          · rintro ⟨deps1, hmem, hc, hs⟩
            exact ⟨deps1, List.mem_cons_of_mem _ hmem, hc, hs⟩
          · rintro ⟨deps1, hmem, hc, hs⟩
            rcases List.mem_cons.mp hmem with hm2 | hm2
            · exact absurd hm2 (by simp)
            · exact ⟨deps1, hm2, hc, hs⟩
      | component m =>
          rw [pingList]
          by_cases hc : ((deps.any fun d => depMatches d raw) ||
              (!cc.isEmpty && deps.any fun d => cc.contains d)) = true
          · rw [if_pos hc]
            by_cases hs : m ∈ subs
            · rw [if_pos hs]
              constructor
              · intro hx
                rcases List.mem_cons.mp hx with hm2 | hm2
                · subst hm2
                  exact ⟨deps, List.mem_cons_self _ _, (shouldPing_iff deps raw cc).mp hc, hs⟩
                · obtain ⟨deps1, hmem, hc1, hs1⟩ := ih.mp hm2
                  exact ⟨deps1, List.mem_cons_of_mem _ hmem, hc1, hs1⟩
              · rintro ⟨deps1, hmem, hc1, hs1⟩
                rcases List.mem_cons.mp hmem with hm2 | hm2
                · simp only [Prod.mk.injEq, CompId.component.injEq] at hm2
                  rw [hm2.1]
                  exact List.mem_cons_self _ _
                · exact List.mem_cons_of_mem _ (ih.mpr ⟨deps1, hm2, hc1, hs1⟩)
            · rw [if_neg hs, ih]
              constructor
              · rintro ⟨deps1, hmem, hc1, hs1⟩
                exact ⟨deps1, List.mem_cons_of_mem _ hmem, hc1, hs1⟩
              · rintro ⟨deps1, hmem, hc1, hs1⟩
                rcases List.mem_cons.mp hmem with hm2 | hm2
                · simp only [Prod.mk.injEq, CompId.component.injEq] at hm2
                  exact absurd (hm2.1 ▸ hs1) hs
                · exact ⟨deps1, hm2, hc1, hs1⟩
          · rw [if_neg hc, ih]
            constructor
            · rintro ⟨deps1, hmem, hc1, hs1⟩
              exact ⟨deps1, List.mem_cons_of_mem _ hmem, hc1, hs1⟩
            · rintro ⟨deps1, hmem, hc1, hs1⟩
              rcases List.mem_cons.mp hmem with hm2 | hm2
              · simp only [Prod.mk.injEq, CompId.component.injEq] at hm2
                exact absurd ((shouldPing_iff deps raw cc).mpr (hm2.2 ▸ hc1)) hc
              · exact ⟨deps1, hm2, hc1, hs1⟩

theorem proxySet_log (f : Nat) (st : Engine) (base : List String) (key : String)
    (v : JSVal) (st' : Engine) (r : ERes Bool)
    (h : proxySet f st base key v = some (st', r)) :
    st'.notifyLog = st.notifyLog ++ [base ++ [key]] := by
  cases f with
  | zero => exact Option.noConfusion h
  | succ f =>
      simp only [proxySet] at h
      split at h
      · exact Option.noConfusion h
      · rename_i st2 u heq
        cases h
        have hx := notify_log _ _ _ _ _ heq
        exact hx
      · rename_i st2 u heq
        cases h
        have hx := notify_log _ _ _ _ _ heq
        exact hx

theorem proxyDelete_log (f : Nat) (st : Engine) (base : List String) (key : String)
    (st' : Engine) (r : ERes Bool) (h : proxyDelete f st base key = some (st', r)) :
    st'.notifyLog = st.notifyLog ++ [base ++ [key]] := by
  cases f with
  | zero => exact Option.noConfusion h
  | succ f =>
      simp only [proxyDelete] at h
      split at h
      · exact Option.noConfusion h
      · rename_i st2 u heq
        cases h
        have hx := notify_log _ _ _ _ _ heq
        exact hx
      · rename_i st2 u heq
        cases h
        have hx := notify_log _ _ _ _ _ heq
        exact hx

/-! ### Claims -/

/-- C2 (counterexample): the claim says exiting a tracking scope restores
exactly the scope that was active before entry.  With component 7's scope
active, evaluating a registered computed (the source's `runComputed`, whose
`finally` block runs `currentTracker = null`) exits with the tracker set to
null, not component 7: the enclosing scope is lost, so subsequent reads no
longer append to component 7's dependency set. -/
theorem C2_counterexample :
    nestSt.tracker = some (.component 7) ∧
    resOf (runComputed 5 nestSt "k") = some (.ok (.num 1)) ∧
    (stateOf (runComputed 5 nestSt "k") nestSt).tracker = none ∧
    (stateOf (runComputed 5 nestSt "k") nestSt).tracker ≠ nestSt.tracker :=
  ⟨rfl, rfl, rfl, fun h => Option.noConfusion h⟩

/-- C2 (amended): exiting a tracking scope — component scope or computed
evaluation, on normal return and on exception alike — unconditionally sets
the active tracker to null.  The previously active scope is restored only
in the ordinary top-level case where it was null; a nested scope's exit
does not reinstate the enclosing scope. -/
theorem C2_theorem :
    (∀ f st n body st' r, withComponentTracking f st n body = some (st', r) →
      st'.tracker = none) ∧
    (∀ f st k st' r, (lookupA st.registry k).isSome →
      runComputed f st k = some (st', r) → st'.tracker = none) := by
  constructor
  · intro f st n body st' r h
    cases f with
    | zero => exact Option.noConfusion h
    | succ f =>
        simp only [withComponentTracking] at h
        split at h
        · exact Option.noConfusion h
        · rename_i st2 r2 heq
          cases h
          rfl
  · intro f st k st' r hreg h
    cases f with
    | zero => exact Option.noConfusion h
    | succ f =>
        rw [runComputed_succ] at h
        simp only [stepRun] at h
        split at h
        · rename_i hnone
          rw [hnone] at hreg
          exact absurd hreg (by simp)
        · rename_i entry hentry
          split at h
          · exact Option.noConfusion h
          · rename_i st3 u heq
            cases h
            rfl
          · rename_i st3 v heq
            cases h
            rfl

/-- C2 (witness): both halves of the amended theorem at concrete inputs —
a component scope run over the demo engine, and a computed evaluation in
an engine whose registry holds the computed. -/
theorem C2_witness :
    (stateOf (withComponentTracking 5 demoSt0 3 .litUndefV) demoSt0).tracker = none ∧
    (stateOf (runComputed 5 nestSt "k") nestSt).tracker = none :=
  ⟨C2_theorem.1 5 demoSt0 3 .litUndefV _ _ rfl, C2_theorem.2 5 nestSt "k" _ _ rfl rfl⟩

/-- C6 (counterexample): the claim says a failed evaluation leaves the
entry dirty so the next read retries evaluation, and modifies no engine
state beyond a dirty flag.  In the code there is no dirty flag at all: the
first read of `b` throws (run count 1), but because `ensureComputed`
registered the entry before the failed run, the second read succeeds
without re-running (run count still 1), returning a live handle over the
never-computed memoized value (undefined) — a cached failure.  The failed
run also reset the computed's dependency set to a fresh empty set. -/
theorem C6_counterexample :
    resOf (proxyGet 20 bSt0 throwFields [] "b") = some (.error ()) ∧
    runCountAt bSt1 bK = some 1 ∧
    lastAt bSt1 bK = some .undefV ∧
    lastRunAt bSt1 bK = some 0 ∧
    depsOf bSt1 (.computed bK) = some [] ∧
    resOf (proxyGet 20 bSt1 throwFields [] "b") = some (.ok (.rawc (.liveC bK))) ∧
    runCountAt (stateOf (proxyGet 20 bSt1 throwFields [] "b") bSt1) bK = some 1 :=
  ⟨rfl, rfl, rfl, rfl, rfl, rfl, rfl⟩

/-- C6 (amended): if a computed's evaluation function throws, the exception
propagates synchronously to the caller of `runComputed`, and `runComputed`
itself performs no state change on the error path beyond its entry
bookkeeping (dependency-set reset, tracker installation, ghost run-count
bump) and the `finally`-style tracker reset to null: in particular, when
the evaluation itself left the entry alone, the memoized value and
timestamp are untouched (only the ghost run counter moved).  There is no
dirty flag, and the next read returns the stale memoized value without
retrying (see the counterexample). -/
theorem C6_theorem (f : Nat) (st : Engine) (k : String) (e : CEntry) (st3 : Engine)
    (u : Unit) (hreg : lookupA st.registry k = some e)
    (heval : evalE f (computedEntryState st k) (.proxied e.runBase) e.run =
      some (st3, .error u)) :
    runComputed (f + 1) st k = some ({ st3 with tracker := none }, .error u) ∧
    (lookupA st3.registry k = lookupA (computedEntryState st k).registry k →
      ∃ e3, lookupA st3.registry k = some e3 ∧ e3.last = e.last ∧
        e3.lastRun = e.lastRun ∧ e3.run = e.run ∧ e3.runCount = e.runCount + 1) := by
  constructor
  · rw [runComputed_succ]
    simp only [stepRun, hreg, engineFns_evalF, heval]
  · intro hp
    rw [hp]
    have hb : lookupA (computedEntryState st k).registry k =
        some { e with runCount := e.runCount + 1 } := by
      show lookupA (bumpRunCount st.registry k) k = _
      rw [lookupA_bumpRunCount, hreg]
      rfl
    exact ⟨_, hb, rfl, rfl, rfl, rfl⟩

/-- C6 (witness): the amended theorem at a concrete throwing computed with
a previously memoized value 7, timestamp 3 and run count 5. -/
theorem C6_witness :
    runComputed 3 thrSt "kk" =
      some ({ computedEntryState thrSt "kk" with tracker := none }, .error ()) ∧
    (∃ e3, lookupA (computedEntryState thrSt "kk").registry "kk" = some e3 ∧
      e3.last = thrEntry.last ∧ e3.lastRun = thrEntry.lastRun ∧
      e3.run = thrEntry.run ∧ e3.runCount = thrEntry.runCount + 1) := by
  have h := C6_theorem 2 thrSt "kk" thrEntry (computedEntryState thrSt "kk") () rfl rfl
  exact ⟨h.1, h.2 rfl⟩

/-- C9: wrapping is idempotent by identity.  `proxy` called twice on the
same raw root identity returns the same wrapper (the second `makeProxy`
hits the proxy cache), and `makeProxy` on the same nested target identity
— which is what the get trap runs for a nested object — always returns the
cached wrapper, so repeated reads of the same nested location yield the
identical wrapper instance. -/
theorem C9_theorem :
    (∀ h r, (proxyH (proxyH h r).1 r).2 = (proxyH h r).2) ∧
    (∀ h c s s2, (makeProxyH (makeProxyH h c s).1 c s2).2 = (makeProxyH h c s).2) := by
  constructor
  · intro h r
    cases hc : lookupA h.cache r with
    | none => simp [proxyH, createStoreH, makeProxyH, hc, lookupA]
    | some p => simp [proxyH, createStoreH, makeProxyH, hc]
  · intro h c s s2
    cases hc : lookupA h.cache c with
    | none => simp [makeProxyH, hc, lookupA]
    | some p => simp [makeProxyH, hc]

/-- C7 (counterexample): the claim says an array insert via index
assignment additionally triggers a synthetic `length` path invalidation.
Inserting element 1 into an array of length 1 through the proxy's set trap
produces exactly one invalidation pass, for path `items.1`, and the
subscribed component whose only dependency is `items.length` is not
pinged: no synthetic length invalidation exists in the code. -/
theorem C7_counterexample :
    resOf (proxySet 20 arrSt ["items"] "1" (.obj [("qty", .num 2)])) = some (.ok true) ∧
    arrSt1.notifyLog = [["items", "1"]] ∧
    arrSt1.pinged = [] :=
  ⟨rfl, rfl, rfl⟩

/-- C7 (amended): the set and delete traps invoke the write-invalidation
pass exactly once, with the written property's own absolute path; for a
structural array mutation at an index (any key other than `length`) no
`length` path is invalidated — scopes that read the element count react
only when `length` itself is explicitly written (as `Array.prototype.push`
does), not on insert or remove via index assignment or deletion. -/
theorem C7_theorem :
    (∀ f st base key v st' r, key ≠ "length" →
      proxySet f st base key v = some (st', r) →
      st'.notifyLog = st.notifyLog ++ [base ++ [key]] ∧
        (base ++ ["length"]) ∉ st'.notifyLog.drop st.notifyLog.length) ∧
    (∀ f st base key st' r, key ≠ "length" →
      proxyDelete f st base key = some (st', r) →
      st'.notifyLog = st.notifyLog ++ [base ++ [key]] ∧
        (base ++ ["length"]) ∉ st'.notifyLog.drop st.notifyLog.length) := by
  have hmem : ∀ (base : List String) (key : String), key ≠ "length" →
      (base ++ ["length"]) ∉ [base ++ [key]] := by
    intro base key hk hmm
    have heq := List.mem_singleton.mp hmm
    have h2 := List.append_cancel_left heq
    have h3 : "length" = key := by
      injection h2
    exact hk h3.symm
  constructor
  · intro f st base key v st' r hk h
    have hlog := proxySet_log _ _ _ _ _ _ _ h
    refine ⟨hlog, ?_⟩
    rw [hlog, List.drop_left]
    exact hmem base key hk
  · intro f st base key st' r hk h
    have hlog := proxyDelete_log _ _ _ _ _ _ h
    refine ⟨hlog, ?_⟩
    rw [hlog, List.drop_left]
    exact hmem base key hk

/-- C7 (witness): the amended theorem at the concrete array insert (set
trap, key `1`) and at a concrete element deletion (delete trap, key `0`). -/
theorem C7_witness :
    (arrSt1.notifyLog = arrSt.notifyLog ++ [["items"] ++ ["1"]] ∧
      (["items"] ++ ["length"]) ∉ arrSt1.notifyLog.drop arrSt.notifyLog.length) ∧
    ((stateOf (proxyDelete 20 arrSt ["items"] "0") arrSt).notifyLog =
        arrSt.notifyLog ++ [["items"] ++ ["0"]] ∧
      (["items"] ++ ["length"]) ∉
        ((stateOf (proxyDelete 20 arrSt ["items"] "0") arrSt).notifyLog).drop
          arrSt.notifyLog.length) :=
  ⟨C7_theorem.1 20 arrSt ["items"] "1" (.obj [("qty", .num 2)]) _ _ (by decide) rfl,
   C7_theorem.2 20 arrSt ["items"] "0" _ _ (by decide) rfl⟩

/-- C10: every assignment and every deletion through a wrapper runs exactly
one write-invalidation pass, logged with the absolute path written.  The
statement quantifies over arbitrary written values and success flags, so it
covers in particular a write whose new value equals the old one (there is
no value-change short-circuit) and a write whose underlying `Reflect.set`
fails (the pass still runs). -/
theorem C10_theorem :
    (∀ f st base key v st' r, proxySet f st base key v = some (st', r) →
      st'.notifyLog = st.notifyLog ++ [base ++ [key]]) ∧
    (∀ f st base key st' r, proxyDelete f st base key = some (st', r) →
      st'.notifyLog = st.notifyLog ++ [base ++ [key]]) :=
  ⟨fun f st base key v st' r h => proxySet_log f st base key v st' r h,
   fun f st base key st' r h => proxyDelete_log f st base key st' r h⟩

/-- C10 (witness): three concrete runs — an assignment of the value already
stored (`a = 1`, `Object.is`-equal, still one pass), an assignment to the
accessor-only property `c` (the underlying mutation fails, `false` is
returned, still one pass), and a deletion. -/
theorem C10_witness :
    (stateOf (proxySet 20 demoSt0 [] "a" (.num 1)) demoSt0).notifyLog = [["a"]] ∧
    resOf (proxySet 20 demoSt0 [] "a" (.num 1)) = some (.ok true) ∧
    (stateOf (proxySet 20 demoSt0 [] "c" (.num 9)) demoSt0).notifyLog = [["c"]] ∧
    resOf (proxySet 20 demoSt0 [] "c" (.num 9)) = some (.ok false) ∧
    (stateOf (proxyDelete 20 demoSt0 [] "a") demoSt0).notifyLog = [["a"]] := by
  refine ⟨?_, rfl, ?_, rfl, ?_⟩
  · exact C10_theorem.1 20 demoSt0 [] "a" (.num 1) _ _ rfl
  · exact C10_theorem.1 20 demoSt0 [] "c" (.num 9) _ _ rfl
  · exact C10_theorem.2 20 demoSt0 [] "a" _ _ rfl

/-- C1 (counterexample): the claim says a write only marks affected
computeds dirty and never invokes their evaluation function, deferring
re-evaluation to the next read.  In the code, after component 1 registers
the computed `c` (run count 1), the write `a = 2` through the set trap
re-runs `c`'s evaluation function inside `notifyPathChange` itself (run
count 2, memoized value already 2), and the subsequent read of `c` runs
nothing (run count still 2): recomputation is eager at write time, not
deferred to the read. -/
theorem C1_counterexample :
    runCountAt demoSt1 demoK = some 1 ∧
    runCountAt demoSt2 demoK = some 2 ∧
    lastAt demoSt2 demoK = some (.num 2) ∧
    runCountAt demoSt3 demoK = some 2 :=
  ⟨rfl, rfl, rfl, rfl⟩

/-- C1 (amended): there is no dirty flag; `notifyPathChange` eagerly
re-evaluates every affected computed during the write pass (concrete
conjuncts: the demo write moves the run count from 1 to 2), while a read
of an already-registered computed never invokes any evaluation function —
the get trap leaves the whole computed registry, run counts included,
unchanged. -/
theorem C1_theorem :
    (∀ f st fields base key body e,
      lookupField fields key = some (.getterV body) →
      lookupA st.registry (ckeyOf (keyOf (base ++ [key]))) = some e →
      ∃ st' r, proxyGet (f + 2) st fields base key = some (st', r) ∧
        st'.registry = st.registry) ∧
    runCountAt demoSt1 demoK = some 1 ∧ runCountAt demoSt2 demoK = some 2 := by
  refine ⟨?_, rfl, rfl⟩
  intro f st fields base key body e hfield hreg
  cases htr : st.tracker with
  | none =>
      refine ⟨st, .ok (.rawc (.liveC (ckeyOf (keyOf (base ++ [key]))))), ?_, rfl⟩
      simp [proxyGet_succ, stepGet, hfield, engineFns_ensureF, ensureComputed_succ,
        stepEnsure, hreg, htr]
  | some t =>
      refine ⟨addDepTo st t (ckeyOf (keyOf (base ++ [key]))), .ok (.rawc e.last), ?_,
        by simp⟩
      simp [proxyGet_succ, stepGet, hfield, engineFns_ensureF, ensureComputed_succ,
        stepEnsure, hreg, htr]

/-- C1 (witness): the read half of the amended theorem at the tracked demo
engine, where the computed `c` is already registered. -/
theorem C1_witness :
    ∃ st' r, proxyGet 20 trackedSt demoFields1 [] "c" = some (st', r) ∧
      st'.registry = trackedSt.registry :=
  C1_theorem.1 18 trackedSt demoFields1 [] "c" (.readPath ["a"]) demoEntry rfl rfl

/-- C3 (counterexample): the claim says a scope's published dependency set
equals the set of DepKeys it read.  Running the same component body —
which reads the computed `c` and then the raw `a` — twice publishes two
different sets: the first run publishes the empty set (the first read of
`c` registers and evaluates it, which nulls the tracker, so both the
computed DepKey and the later read of `a` are dropped), the second run
publishes both keys.  The reads performed are identical, so at least the
first run's set under-approximates them. -/
theorem C3_counterexample :
    depsOf c3St1 (.component 1) = some [] ∧
    depsOf c3St2 (.component 1) = some [demoK, "a"] :=
  ⟨rfl, rfl⟩

/-- C3 (amended): a leaf read is recorded exactly when a tracker is active
at the instant of the read, and then it appends exactly its own DepKey to
that scope's set: a primitive read under an active tracker returns the
value and extends precisely the active scope's dependency set, while the
same read with a null tracker records nothing anywhere and returns a live
handle.  Because a first computed registration nulls the tracker for the
remainder of the enclosing scope body (see the counterexample), the
published set can under-approximate the reads performed. -/
theorem C3_theorem :
    (∀ f st fields base key v t, lookupField fields key = some v →
      isPrimitiveV v = true → st.tracker = some t →
      proxyGet (f + 1) st fields base key =
        some (addDepTo st t (keyOf (base ++ [key])), .ok (.rawc v))) ∧
    (∀ f st fields base key v, lookupField fields key = some v →
      isPrimitiveV v = true → st.tracker = none →
      proxyGet (f + 1) st fields base key =
        some (st, .ok (.rawc (.live (base ++ [key]))))) := by
  constructor
  · intro f st fields base key v t hfield hprim htr
    rw [proxyGet_succ]
    cases v with
    | undefV => simp [stepGet, hfield, htr, isPrimitiveV]
    | nul => simp [stepGet, hfield, htr, isPrimitiveV]
    | num n => simp [stepGet, hfield, htr, isPrimitiveV]
    | str s => simp [stepGet, hfield, htr, isPrimitiveV]
    | boolV b => simp [stepGet, hfield, htr, isPrimitiveV]
    | obj fs => simp [isPrimitiveV] at hprim
    | getterV body => simp [isPrimitiveV] at hprim
    | refV inner => simp [isPrimitiveV] at hprim
    | live p => simp [isPrimitiveV] at hprim
    | liveC k2 => simp [isPrimitiveV] at hprim
  · intro f st fields base key v hfield hprim htr
    rw [proxyGet_succ]
    cases v with
    | undefV => simp [stepGet, hfield, htr, isPrimitiveV]
    | nul => simp [stepGet, hfield, htr, isPrimitiveV]
    | num n => simp [stepGet, hfield, htr, isPrimitiveV]
    | str s => simp [stepGet, hfield, htr, isPrimitiveV]
    | boolV b => simp [stepGet, hfield, htr, isPrimitiveV]
    | obj fs => simp [isPrimitiveV] at hprim
    | getterV body => simp [isPrimitiveV] at hprim
    | refV inner => simp [isPrimitiveV] at hprim
    | live p => simp [isPrimitiveV] at hprim
    | liveC k2 => simp [isPrimitiveV] at hprim

/-- C3 (witness): both halves of the amended theorem at the demo engine:
the tracked read of `a` records exactly `a` for component 4; the untracked
read records nothing and returns a live handle. -/
theorem C3_witness :
    proxyGet 3 trackedSt demoFields1 [] "a" =
      some (addDepTo trackedSt (.component 4) (keyOf ([] ++ ["a"])), .ok (.rawc (.num 1))) ∧
    proxyGet 3 demoSt1 demoFields1 [] "a" =
      some (demoSt1, .ok (.rawc (.live ([] ++ ["a"])))) :=
  ⟨C3_theorem.1 2 trackedSt demoFields1 [] "a" (.num 1) (.component 4) rfl rfl rfl,
   C3_theorem.2 2 demoSt1 demoFields1 [] "a" (.num 1) rfl rfl rfl⟩

/-- C4 (counterexample): the claim says a component reading a computed
records the computed's DepKey and every raw prefix the computed depends
on.  Component 2 reads the registered computed `c` (whose current raw
dependency set is `a`); its published set is exactly the computed DepKey —
the raw prefix `a` is not merged in. -/
theorem C4_counterexample :
    depsOf c4St (.component 2) = some [demoK] ∧
    depsOf c4St (.computed demoK) = some ["a"] ∧
    "a" ∉ [demoK] :=
  ⟨rfl, rfl, by decide⟩

/-- C4 (amended): when the active scope reads an already-registered
computed property, the engine records exactly one dependency — the
computed's DepKey — in the active scope's set and returns the memoized
value; the computed's raw dependencies are not merged into the reader's
set (component invalidation for raw-path writes instead goes through the
changed-computed check of `notifyPathChange`), and no cleanliness check
exists. -/
theorem C4_theorem (f : Nat) (st : Engine) (fields : List (String × JSVal))
    (base : List String) (key : String) (body : Expr) (e : CEntry) (t : CompId)
    (hfield : lookupField fields key = some (.getterV body))
    (htr : st.tracker = some t)
    (hreg : lookupA st.registry (ckeyOf (keyOf (base ++ [key]))) = some e) :
    proxyGet (f + 2) st fields base key =
      some (addDepTo st t (ckeyOf (keyOf (base ++ [key]))), .ok (.rawc e.last)) := by
  simp [proxyGet_succ, stepGet, hfield, engineFns_ensureF, ensureComputed_succ,
    stepEnsure, hreg, htr]

/-- C4 (witness): the amended theorem at component 4 reading the demo
computed `c`. -/
theorem C4_witness :
    proxyGet 20 trackedSt demoFields1 [] "c" =
      some (addDepTo trackedSt (.component 4) (ckeyOf (keyOf ([] ++ ["c"]))),
        .ok (.rawc demoEntry.last)) :=
  C4_theorem 18 trackedSt demoFields1 [] "c" (.readPath ["a"]) demoEntry (.component 4)
    rfl rfl rfl

/-- C8: reading the same registered computed twice with no intervening
write returns the same value both times (under tracking, the memoized
`entry.last` itself; outside tracking, the same live handle resolving to
it), and neither read invokes the evaluation function — the computed
registry, run counts included, is untouched by both reads. -/
theorem C8_theorem (f : Nat) (st : Engine) (fields : List (String × JSVal))
    (base : List String) (key : String) (body : Expr) (e : CEntry)
    (hfield : lookupField fields key = some (.getterV body))
    (hreg : lookupA st.registry (ckeyOf (keyOf (base ++ [key]))) = some e) :
    ∃ st1 v st2, proxyGet (f + 2) st fields base key = some (st1, .ok v) ∧
      proxyGet (f + 2) st1 fields base key = some (st2, .ok v) ∧
      st1.registry = st.registry ∧ st2.registry = st.registry ∧
      (st.tracker.isSome → v = .rawc e.last) := by
  cases htr : st.tracker with
  | none =>
      refine ⟨st, .rawc (.liveC (ckeyOf (keyOf (base ++ [key])))), st, ?_, ?_, rfl, rfl, ?_⟩
      · simp [proxyGet_succ, stepGet, hfield, engineFns_ensureF, ensureComputed_succ,
          stepEnsure, hreg, htr]
      · simp [proxyGet_succ, stepGet, hfield, engineFns_ensureF, ensureComputed_succ,
          stepEnsure, hreg, htr]
      · intro hs
        simp [htr] at hs
  | some t =>
      refine ⟨addDepTo st t (ckeyOf (keyOf (base ++ [key]))), .rawc e.last,
        addDepTo (addDepTo st t (ckeyOf (keyOf (base ++ [key])))) t
          (ckeyOf (keyOf (base ++ [key]))), ?_, ?_, by simp, by simp, fun _ => rfl⟩
      · simp [proxyGet_succ, stepGet, hfield, engineFns_ensureF, ensureComputed_succ,
          stepEnsure, hreg, htr]
      · simp [proxyGet_succ, stepGet, hfield, engineFns_ensureF, ensureComputed_succ,
          stepEnsure, hreg, htr]

/-- C8 (witness): the theorem at component 4 reading the demo computed `c`
twice. -/
theorem C8_witness :
    ∃ st1 v st2, proxyGet 20 trackedSt demoFields1 [] "c" = some (st1, .ok v) ∧
      proxyGet 20 st1 demoFields1 [] "c" = some (st2, .ok v) ∧
      st1.registry = trackedSt.registry ∧ st2.registry = trackedSt.registry ∧
      (trackedSt.tracker.isSome → v = .rawc demoEntry.last) :=
  C8_theorem 18 trackedSt demoFields1 [] "c" (.readPath ["a"]) demoEntry rfl rfl

/-- C5: given the write pass's recompute phase (whose result `cc` is the
final affected set it returns: the closure of computed DepKeys whose value
actually changed), `notifyPathChange` invokes exactly the callbacks listed
by `pingList`, and a subscriber's callback is invoked iff it is subscribed
and its recorded dependency set contains either a raw DepKey that equals
the written path's key or extends it or is extended by it at a `.` segment
boundary (`depMatches`), or a computed DepKey belonging to `cc`. -/
theorem C5_theorem (f : Nat) (st : Engine) (path : List String) (st2 : Engine)
    (cc : List String)
    (hrec : recomputeAffectedComputeds f
      { st with notifyLog := st.notifyLog ++ [path] } [keyOf path] =
      some (st2, .ok cc)) :
    notifyPathChange (f + 1) st path =
      some ({ st2 with pinged :=
        st2.pinged ++ pingList st2.depGraph st2.subs (keyOf path) cc }, .ok ()) ∧
    ∀ n, n ∈ pingList st2.depGraph st2.subs (keyOf path) cc ↔
      ∃ deps, (CompId.component n, deps) ∈ st2.depGraph ∧
        ((∃ d ∈ deps, depMatches d (keyOf path) = true) ∨ ∃ d ∈ deps, d ∈ cc) ∧
        n ∈ st2.subs := by
  constructor
  · simp only [notifyPathChange]
    rw [hrec]
  · intro n
    exact mem_pingList st2.depGraph st2.subs (keyOf path) cc n

/-- C5 (witness): the theorem applied to a subscriber that only read
`items[3].qty`.  A write to `items.3.qty` pings it (its dependency matches
the changed key), while for the write to `items.7.price` the ping list is
empty — no ancestor/descendant match and no changed computed. -/
theorem C5_witness :
    (notifyPathChange 20 pSt ["items", "3", "qty"] =
      some ({ pStQ with pinged :=
        pStQ.pinged ++ pingList pStQ.depGraph pStQ.subs (keyOf ["items", "3", "qty"]) [] },
        .ok ())) ∧
    1 ∈ pingList pStQ.depGraph pStQ.subs (keyOf ["items", "3", "qty"]) [] ∧
    pingList pStP.depGraph pStP.subs (keyOf ["items", "7", "price"]) [] = [] := by
  have hq := C5_theorem 19 pSt ["items", "3", "qty"] pStQ [] rfl
  refine ⟨hq.1, ?_, by decide⟩
  refine (hq.2 1).mpr ⟨["items.3.qty"], ?_, ?_, ?_⟩
  · decide
  · left
    exact ⟨"items.3.qty", by decide, by decide⟩
  · decide

end ValtioEx
